import Mathlib

/-!
# arduino-cli: library index builder and the prototype-adding pipeline

Shallow embedding of

* `arduino/libraries/librariesindex/index.go`
  (`indexJSON.extractIndex`, `indexRelease.extractLibraryIn`,
  `indexRelease.extractReleaseIn`), and
* `legacy/builder/container_add_prototypes.go` (`ContainerAddPrototypes.Run`).

Go pointers to `Library` objects are addresses into an explicit heap, the nil
pointer is `none`, Go maps are association lists (the nil map is `none`), and a
Go runtime panic is the `Except.error` result.
-/

set_option autoImplicit false

namespace librariesindex

/-! ## Data model (index.go, lines 42-91) -/

/-- Go runtime panics that the index builder can raise. `invalidAddress` stands for
an address outside the heap; pointers handed out by the heap never produce it. -/
inductive Panic where
  | nilPointerDereference
  | assignmentToNilMap
  | invalidAddress
  deriving DecidableEq, Repr

/-- Lookup in the entries of a Go map. -/
def assocGet {α : Type} : List (String × α) → String → Option α
  | [], _ => none
  | (k, v) :: rest, key => if k = key then some v else assocGet rest key

/-- Assignment in the entries of a Go map: an existing key is overwritten, a new
key is added. -/
def assocSet {α : Type} : List (String × α) → String → α → List (String × α)
  | [], key, v => [(key, v)]
  | (k, x) :: rest, key, v =>
    if k = key then (k, v) :: rest else (k, x) :: assocSet rest key v

/-- Go `map[string]V`. `entries = none` is the nil map, `some []` is the empty
map made by a composite literal. -/
structure GoMap (α : Type) where
  entries : Option (List (String × α))
  deriving DecidableEq, Repr

/-- The composite literal `map[string]V{}`. -/
def GoMap.empty {α : Type} : GoMap α := ⟨some []⟩

/-- The two-result index expression `v, ok := m[key]`: `none` is `ok = false`.
Reading a nil map is allowed in Go and finds nothing. -/
def GoMap.lookup {α : Type} (m : GoMap α) (key : String) : Option α :=
  match m.entries with
  | none => none
  | some es => assocGet es key

/-- The assignment `m[key] = v`; it panics on the nil map. -/
def GoMap.assign {α : Type} (m : GoMap α) (key : String) (v : α) : Except Panic (GoMap α) :=
  match m.entries with
  | none => .error .assignmentToNilMap
  | some es => .ok ⟨some (assocSet es key v)⟩

/-- A `*Library`: `none` is nil, `some a` the address of a heap cell. -/
abbrev LibraryPtr := Option Nat

/-- The struct `resources.DownloadResource` as far as index.go fills it in. -/
structure DownloadResource where
  URL : String
  ArchiveFileName : String
  Size : Int
  Checksum : String
  CachePath : String
  deriving DecidableEq, Repr

/-- The struct `Release`. `Resource` is always a freshly allocated, unshared
object and is kept by value; `Library` is the back-reference pointer. -/
structure Release where
  Author : String
  Version : String
  Maintainer : String
  Sentence : String
  Paragraph : String
  Website : String
  Category : String
  Architectures : List String
  Types : List String
  Resource : DownloadResource
  InstalledDirectory : String
  Library : LibraryPtr
  deriving DecidableEq, Repr

/-- The struct `Library`. The `Index` back pointer is never assigned in index.go,
so it is nil (`none`) in every object built here. -/
structure Library where
  Name : String
  Releases : GoMap Release
  Index : Option Unit
  deriving DecidableEq, Repr

/-- The struct `Index`: `Libraries map[string]*Library`. -/
structure Index where
  Libraries : GoMap LibraryPtr
  deriving DecidableEq, Repr

/-- The struct `indexRelease`, one record of the JSON catalogue. -/
structure indexRelease where
  Name : String
  Version : String
  Author : String
  Maintainer : String
  Sentence : String
  Paragraph : String
  Website : String
  Category : String
  Architectures : List String
  Types : List String
  URL : String
  ArchiveFileName : String
  Size : Int
  Checksum : String
  deriving DecidableEq, Repr

/-- The struct `indexJSON`. -/
structure indexJSON where
  Libraries : List indexRelease
  deriving DecidableEq, Repr

/-- Memory reachable from the `index *Index` argument: the Index object itself
and the heap of `Library` objects, cell `a` being `heap[a]`. -/
structure Memory where
  index : Index
  heap : List Library
  deriving DecidableEq, Repr

/-! ## Operations (index.go, lines 117-160) -/

/-- Embedding of `func (indexLib *indexRelease) extractReleaseIn(library *Library)`.
The release is built first; then `library.Releases[indexLib.Version] = release`
dereferences `library`, which panics when the pointer is nil. -/
def extractReleaseIn (indexLib : indexRelease) (library : LibraryPtr) (m : Memory) :
    Except Panic Memory :=
  let release : Release :=
    { Version := indexLib.Version
      Author := indexLib.Author
      Maintainer := indexLib.Maintainer
      Sentence := indexLib.Sentence
      Paragraph := indexLib.Paragraph
      Website := indexLib.Website
      Category := indexLib.Category
      Architectures := indexLib.Architectures
      Types := indexLib.Types
      Resource :=
        { URL := indexLib.URL
          ArchiveFileName := indexLib.ArchiveFileName
          Size := indexLib.Size
          Checksum := indexLib.Checksum
          CachePath := "libraries" }
      InstalledDirectory := ""
      Library := library }
  match library with
  | none => .error .nilPointerDereference
  | some a =>
    match m.heap.get? a with
    | none => .error .invalidAddress
    | some lib =>
      match lib.Releases.assign indexLib.Version release with
      | .error p => .error p
      | .ok rels => .ok { m with heap := m.heap.set a { lib with Releases := rels } }

/-- Embedding of `func (indexLib *indexRelease) extractLibraryIn(index *Index)`.

The outer `library, exist := index.Libraries[indexLib.Name]` is nil when the
name is absent. Inside the `if !exist` block the statement
`library := &Library{...}` declares a NEW variable (here `inner`) that is stored
in the map; the call after the block passes the OUTER `library`. -/
def extractLibraryIn (indexLib : indexRelease) (m : Memory) : Except Panic Memory :=
  let found := m.index.Libraries.lookup indexLib.Name
  let library : LibraryPtr := found.getD none
  let exist : Bool := found.isSome
  if !exist then
    let inner : LibraryPtr := some m.heap.length
    let heap1 := m.heap ++ [{ Name := indexLib.Name, Releases := GoMap.empty, Index := none }]
    match m.index.Libraries.assign indexLib.Name inner with
    | .error p => .error p
    | .ok libs => extractReleaseIn indexLib library { index := { Libraries := libs }, heap := heap1 }
  else
    extractReleaseIn indexLib library m

/-- The loop `for _, indexLib := range i.Libraries { indexLib.extractLibraryIn(index) }`. -/
def extractLoop : List indexRelease → Memory → Except Panic Memory
  | [], m => .ok m
  | indexLib :: rest, m =>
    match extractLibraryIn indexLib m with
    | .error p => .error p
    | .ok m1 => extractLoop rest m1

/-- What `extractIndex` returns: the memory holding the returned `*Index` (which is
never nil: it is the address of a composite literal) and the `error` result. -/
structure Extracted where
  mem : Memory
  err : Option String
  deriving DecidableEq, Repr

/-- Embedding of `func (i indexJSON) extractIndex() (*Index, error)`. -/
def extractIndex (i : indexJSON) : Except Panic Extracted :=
  let index : Index := { Libraries := GoMap.empty }
  match extractLoop i.Libraries { index := index, heap := [] } with
  | .error p => .error p
  | .ok m => .ok { mem := m, err := none }

/-- The release that index.go is meant to store for a record: the record's fields,
the fixed cache path, and the back-reference to the owning library. -/
def releaseFor (r : indexRelease) (owner : LibraryPtr) : Release :=
  { Author := r.Author, Version := r.Version, Maintainer := r.Maintainer, Sentence := r.Sentence,
    Paragraph := r.Paragraph, Website := r.Website, Category := r.Category,
    Architectures := r.Architectures, Types := r.Types,
    Resource := ⟨r.URL, r.ArchiveFileName, r.Size, r.Checksum, "libraries"⟩,
    InstalledDirectory := "", Library := owner }

/-- The memory `extractIndex` starts from: an Index with an empty, non-nil map. -/
def emptyMemory : Memory := { index := { Libraries := GoMap.empty }, heap := [] }

/-- A record of the catalogue, used as concrete input. -/
def sampleRecord : indexRelease :=
  { Name := "Servo", Version := "1.1.2", Author := "Arduino", Maintainer := "Arduino",
    Sentence := "Controls servo motors.", Paragraph := "", Website := "", Category := "Device Control",
    Architectures := ["avr"], Types := ["Arduino"], URL := "http://example.org/Servo-1.1.2.zip",
    ArchiveFileName := "Servo-1.1.2.zip", Size := 1024, Checksum := "SHA-256:00" }

end librariesindex

namespace builder

/-! ## Data model of the pipeline (container_add_prototypes.go)

`Run` only sequences collaborators whose bodies live in other files of the
repository (`GCCPreprocRunner`, the five `types.Command` implementations,
`SketchSaveItemCpp`, `i18n.WrapError`, `PrintRingNameIfDebug`) or in the
`go-paths-helper` library (`Join`, `Base`, `MkdirAll`). They are parameters of
the embedding, collected in `Collaborators`. -/

/-- A `*paths.Path`: a wrapper around the path string; `String()` is `path`. -/
structure Path where
  path : String
  deriving DecidableEq, Repr

/-- A `*string` pointing at a string field of the context, as in
`&ctx.SourceGccMinusE`. -/
inductive StringRef where
  | ctxSource
  | ctxSourceGccMinusE
  deriving DecidableEq, Repr

/-- The fields of `types.Context` that `Run` reads, and `Rest` for all the others. -/
structure Context (ρ : Type) where
  PreprocPath : Path
  SketchBuildPath : Path
  SketchMainFileName : Path
  IncludeFolders : List Path
  SourceGccMinusE : String
  Source : String
  Rest : ρ
  deriving DecidableEq, Repr

/-- Value of the string a `StringRef` points at. -/
def StringRef.deref {ρ : Type} (r : StringRef) (ctx : Context ρ) : String :=
  match r with
  | .ctxSource => ctx.Source
  | .ctxSourceGccMinusE => ctx.SourceGccMinusE

/-- The `types.Command` values that `Run` puts in its `commands` slice, with the
fields set in the composite literals. -/
inductive Command where
  | ReadFileAndStoreInContext (FileToRead : Path) (Target : StringRef)
  | FilterSketchSource (Source : StringRef)
  | CTagsTargetFileSaver (Source : StringRef) (TargetFileName : String)
  | CTagsRunner
  | PrototypesAdder
  deriving DecidableEq, Repr

/-- The struct `sketch.Item{Path, Source}`; the conversion `[]byte(s)` keeps the
bytes of `s`, so `Source` is kept as the string. -/
structure Item where
  Path : String
  Source : String
  deriving DecidableEq, Repr

/-- Files (path string, content) and directories on disk. -/
structure FileSystem where
  files : List (String × String)
  dirs : List String
  deriving DecidableEq, Repr

/-- Whether a regular file exists at the path. -/
def FileSystem.fileExists (fs : FileSystem) (p : Path) : Bool :=
  fs.files.any (fun e => e.1 == p.path)

/-- Everything one run can touch: the context `ctx` points at, the disk, and the
lines printed so far. -/
structure World (ρ : Type) where
  ctx : Context ρ
  fs : FileSystem
  out : List String
  deriving DecidableEq, Repr

/-- The callees of `Run`, none of which is defined in container_add_prototypes.go.
A Go `error` is `Option ε`, nil being `none`. A callee that receives `ctx` maps
a world to a world and an error; `MkdirAll` and `SketchSaveItemCpp` do not
receive `ctx` and act on the disk only. `ringName` is what the debug hook
prints for a command. -/
structure Collaborators (ε ρ : Type) where
  FILE_CTAGS_TARGET_FOR_GCC_MINUS_E : String
  Join : Path → String → Path
  Base : Path → String
  MkdirAll : Path → FileSystem → FileSystem × Option ε
  GCCPreprocRunner : Path → Path → List Path → World ρ → World ρ × Option ε
  commandRun : Command → World ρ → World ρ × Option ε
  ringName : Context ρ → Command → List String
  SketchSaveItemCpp : Item → String → FileSystem → FileSystem × Option ε
  WrapError : Option ε → Option ε

/-- A call made by `Run`, with the arguments it passes. -/
inductive Call where
  | MkdirAll (dir : Path)
  | GCCPreprocRunner (sourceFile targetFilePath : Path) (includes : List Path)
  | Run (command : Command)
  | SketchSaveItemCpp (item : Item) (destPath : String)
  deriving DecidableEq, Repr

/-- One executed stage: the call, the world on entry and on return, and the
error the callee returned. -/
structure Event (ε ρ : Type) where
  call : Call
  pre : World ρ
  post : World ρ
  err : Option ε

/-- How the `for` loop over the commands ends: by `return`ing from `Run`, or by
falling through to the statement after the loop. -/
inductive Flow (ε : Type) where
  | returned (err : Option ε)
  | fallthrough
  deriving DecidableEq, Repr

/-- Result of the command loop: the stages executed, the world, the control flow. -/
structure LoopResult (ε ρ : Type) where
  trace : List (Event ε ρ)
  world : World ρ
  flow : Flow ε

/-- Result of `Run`: the stages executed in order, the world when `Run` returns,
and the returned `error`. -/
structure Outcome (ε ρ : Type) where
  trace : List (Event ε ρ)
  world : World ρ
  err : Option ε

/-- Modelled from the spec: `PrintRingNameIfDebug` (legacy/builder, not under src)
is the "ring"/debug-print hook of section 9: it prints the name of the command
about to run and changes neither the context nor the disk. -/
def PrintRingNameIfDebug {ε ρ : Type} (x : Collaborators ε ρ) (w : World ρ)
    (command : Command) : World ρ :=
  { w with out := w.out ++ x.ringName w.ctx command }

/-- The loop
`for _, command := range commands { PrintRingNameIfDebug(ctx, command);
err := command.Run(ctx); if err != nil { return i18n.WrapError(err) } }`. -/
def runCommands {ε ρ : Type} (x : Collaborators ε ρ) :
    List Command → World ρ → LoopResult ε ρ
  | [], w => { trace := [], world := w, flow := .fallthrough }
  | command :: rest, w =>
    let w1 := PrintRingNameIfDebug x w command
    let r := x.commandRun command w1
    let ev : Event ε ρ := { call := .Run command, pre := w1, post := r.1, err := r.2 }
    match r.2 with
    | some e => { trace := [ev], world := r.1, flow := .returned (x.WrapError (some e)) }
    | none =>
      let tail := runCommands x rest r.1
      { trace := ev :: tail.trace, world := tail.world, flow := tail.flow }

/-- The slice `commands` built at lines 41-47. -/
def commands {ε ρ : Type} (x : Collaborators ε ρ) (targetFilePath : Path) : List Command :=
  [ .ReadFileAndStoreInContext targetFilePath .ctxSourceGccMinusE,
    .FilterSketchSource .ctxSourceGccMinusE,
    .CTagsTargetFileSaver .ctxSourceGccMinusE x.FILE_CTAGS_TARGET_FOR_GCC_MINUS_E,
    .CTagsRunner,
    .PrototypesAdder ]

/-- Embedding of `func (s *ContainerAddPrototypes) Run(ctx *types.Context) error`,
statement by statement. -/
def Run {ε ρ : Type} (x : Collaborators ε ρ) (w0 : World ρ) : Outcome ε ρ :=
  -- if err := ctx.PreprocPath.MkdirAll(); err != nil { return i18n.WrapError(err) }
  let r1 := x.MkdirAll w0.ctx.PreprocPath w0.fs
  let w1 : World ρ := { w0 with fs := r1.1 }
  let ev1 : Event ε ρ := { call := .MkdirAll w0.ctx.PreprocPath, pre := w0, post := w1, err := r1.2 }
  match r1.2 with
  | some e => { trace := [ev1], world := w1, err := x.WrapError (some e) }
  | none =>
    -- targetFilePath := ctx.PreprocPath.Join(constants.FILE_CTAGS_TARGET_FOR_GCC_MINUS_E)
    let targetFilePath := x.Join w1.ctx.PreprocPath x.FILE_CTAGS_TARGET_FOR_GCC_MINUS_E
    -- sourceFile := ctx.SketchBuildPath.Join(ctx.Sketch.MainFile.Name.Base() + ".cpp")
    let sourceFile := x.Join w1.ctx.SketchBuildPath (x.Base w1.ctx.SketchMainFileName ++ ".cpp")
    -- if err := GCCPreprocRunner(ctx, sourceFile, targetFilePath, ctx.IncludeFolders); ...
    let r2 := x.GCCPreprocRunner sourceFile targetFilePath w1.ctx.IncludeFolders w1
    let ev2 : Event ε ρ :=
      { call := .GCCPreprocRunner sourceFile targetFilePath w1.ctx.IncludeFolders,
        pre := w1, post := r2.1, err := r2.2 }
    match r2.2 with
    | some e => { trace := [ev1, ev2], world := r2.1, err := x.WrapError (some e) }
    | none =>
      let loop := runCommands x (commands x targetFilePath) r2.1
      match loop.flow with
      | .returned err => { trace := ev1 :: ev2 :: loop.trace, world := loop.world, err := err }
      | .fallthrough =>
        -- bldr.SketchSaveItemCpp(&sketch.Item{ctx.Sketch.MainFile.Name.String(),
        --   []byte(ctx.Source)}, ctx.SketchBuildPath.String())
        let w3 := loop.world
        let item : Item := { Path := w3.ctx.SketchMainFileName.path, Source := w3.ctx.Source }
        let r4 := x.SketchSaveItemCpp item w3.ctx.SketchBuildPath.path w3.fs
        let w4 : World ρ := { w3 with fs := r4.1 }
        let ev4 : Event ε ρ :=
          { call := .SketchSaveItemCpp item w3.ctx.SketchBuildPath.path,
            pre := w3, post := w4, err := r4.2 }
        match r4.2 with
        | some e =>
          { trace := ev1 :: ev2 :: (loop.trace ++ [ev4]), world := w4, err := x.WrapError (some e) }
        | none => { trace := ev1 :: ev2 :: (loop.trace ++ [ev4]), world := w4, err := none }

/-! ## Vocabulary for stating properties of a run -/

/-- The eight stages of the pipeline. -/
inductive Stage where
  | MkdirAll
  | GCCPreprocRunner
  | ReadFileAndStoreInContext
  | FilterSketchSource
  | CTagsTargetFileSaver
  | CTagsRunner
  | PrototypesAdder
  | SketchSaveItemCpp
  deriving DecidableEq, Repr

/-- The stage a call belongs to. -/
def Call.stage : Call → Stage
  | .MkdirAll _ => .MkdirAll
  | .GCCPreprocRunner _ _ _ => .GCCPreprocRunner
  | .Run (.ReadFileAndStoreInContext _ _) => .ReadFileAndStoreInContext
  | .Run (.FilterSketchSource _) => .FilterSketchSource
  | .Run (.CTagsTargetFileSaver _ _) => .CTagsTargetFileSaver
  | .Run .CTagsRunner => .CTagsRunner
  | .Run .PrototypesAdder => .PrototypesAdder
  | .SketchSaveItemCpp _ _ => .SketchSaveItemCpp

/-- The stages in the order of the source text of `Run`. -/
def stageOrder : List Stage :=
  [ .MkdirAll, .GCCPreprocRunner, .ReadFileAndStoreInContext, .FilterSketchSource,
    .CTagsTargetFileSaver, .CTagsRunner, .PrototypesAdder, .SketchSaveItemCpp ]

/-- Stages of the executed calls, in execution order. -/
def Outcome.stages {ε ρ : Type} (r : Outcome ε ρ) : List Stage :=
  r.trace.map (fun ev => ev.call.stage)

/-- Effect of a call: the collaborator applied to the world on entry. -/
def Collaborators.exec {ε ρ : Type} (x : Collaborators ε ρ) :
    Call → World ρ → World ρ × Option ε
  | .MkdirAll dir, w => ({ w with fs := (x.MkdirAll dir w.fs).1 }, (x.MkdirAll dir w.fs).2)
  | .GCCPreprocRunner s t incs, w => x.GCCPreprocRunner s t incs w
  | .Run command, w => x.commandRun command w
  | .SketchSaveItemCpp item dest, w =>
    ({ w with fs := (x.SketchSaveItemCpp item dest w.fs).1 }, (x.SketchSaveItemCpp item dest w.fs).2)

/-- An event records a real call: its result is the collaborator's result on the
recorded entry world. -/
def Event.sound {ε ρ : Type} (x : Collaborators ε ρ) (ev : Event ε ρ) : Prop :=
  ev.post = (x.exec ev.call ev.pre).1 ∧ ev.err = (x.exec ev.call ev.pre).2

/-- The later stage starts from the context and the disk the earlier one left. -/
def Event.handsOver {ε ρ : Type} (a b : Event ε ρ) : Prop :=
  b.pre.ctx = a.post.ctx ∧ b.pre.fs = a.post.fs

/-- Every stage of a trace starts from the context and disk its predecessor left. -/
def Handover {ε ρ : Type} (t : List (Event ε ρ)) : Prop :=
  List.Chain' Event.handsOver t

/-- `WrapError` maps a non-nil error to a non-nil error. -/
def Collaborators.wrapKeepsError {ε ρ : Type} (x : Collaborators ε ρ) : Prop :=
  ∀ e : ε, x.WrapError (some e) ≠ none

/-- The path `Run` computes for the preprocessor output. -/
def targetFilePath {ε ρ : Type} (x : Collaborators ε ρ) (ctx : Context ρ) : Path :=
  x.Join ctx.PreprocPath x.FILE_CTAGS_TARGET_FOR_GCC_MINUS_E

/-- The path `Run` computes for the merged sketch source. -/
def sourceFile {ε ρ : Type} (x : Collaborators ε ρ) (ctx : Context ρ) : Path :=
  x.Join ctx.SketchBuildPath (x.Base ctx.SketchMainFileName ++ ".cpp")

/-- The call that saves the sketch held by a context. -/
def saveCall {ρ : Type} (ctx : Context ρ) : Call :=
  .SketchSaveItemCpp { Path := ctx.SketchMainFileName.path, Source := ctx.Source }
    ctx.SketchBuildPath.path

/-- The eight calls of a complete run that starts with context `ctx` and reaches
the final save with context `last`. -/
def expectedCalls {ε ρ : Type} (x : Collaborators ε ρ) (ctx last : Context ρ) : List Call :=
  [ .MkdirAll ctx.PreprocPath,
    .GCCPreprocRunner (sourceFile x ctx) (targetFilePath x ctx) ctx.IncludeFolders,
    .Run (.ReadFileAndStoreInContext (targetFilePath x ctx) .ctxSourceGccMinusE),
    .Run (.FilterSketchSource .ctxSourceGccMinusE),
    .Run (.CTagsTargetFileSaver .ctxSourceGccMinusE x.FILE_CTAGS_TARGET_FOR_GCC_MINUS_E),
    .Run .CTagsRunner,
    .Run .PrototypesAdder,
    saveCall last ]

/-- The event of the first stage. -/
def mkdirEvent {ε ρ : Type} (x : Collaborators ε ρ) (w : World ρ) : Event ε ρ :=
  { call := .MkdirAll w.ctx.PreprocPath, pre := w,
    post := { w with fs := (x.MkdirAll w.ctx.PreprocPath w.fs).1 },
    err := (x.MkdirAll w.ctx.PreprocPath w.fs).2 }

/-- The event of the preprocessor stage, run in the world the first stage left. -/
def preprocEvent {ε ρ : Type} (x : Collaborators ε ρ) (w : World ρ) : Event ε ρ :=
  { call := .GCCPreprocRunner (sourceFile x w.ctx) (targetFilePath x w.ctx) w.ctx.IncludeFolders,
    pre := (mkdirEvent x w).post,
    post := (x.GCCPreprocRunner (sourceFile x w.ctx) (targetFilePath x w.ctx) w.ctx.IncludeFolders
      (mkdirEvent x w).post).1,
    err := (x.GCCPreprocRunner (sourceFile x w.ctx) (targetFilePath x w.ctx) w.ctx.IncludeFolders
      (mkdirEvent x w).post).2 }

/-- The command loop of a run, started in the world the preprocessor left. -/
def loopOf {ε ρ : Type} (x : Collaborators ε ρ) (w : World ρ) : LoopResult ε ρ :=
  runCommands x (commands x (targetFilePath x w.ctx)) (preprocEvent x w).post

/-- The event of the final save, run in world `w3`. -/
def saveEvent {ε ρ : Type} (x : Collaborators ε ρ) (w3 : World ρ) : Event ε ρ :=
  { call := saveCall w3.ctx, pre := w3,
    post := { w3 with fs := (x.SketchSaveItemCpp
      { Path := w3.ctx.SketchMainFileName.path, Source := w3.ctx.Source }
      w3.ctx.SketchBuildPath.path w3.fs).1 },
    err := (x.SketchSaveItemCpp
      { Path := w3.ctx.SketchMainFileName.path, Source := w3.ctx.Source }
      w3.ctx.SketchBuildPath.path w3.fs).2 }

/-! ## A concrete tool chain, used as test input -/

/-- Write a file: replace the content of an existing path or add the path. -/
def FileSystem.write (fs : FileSystem) (p : String) (content : String) : FileSystem :=
  { fs with files := (p, content) :: fs.files.filter (fun e => !(e.1 == p)) }

/-- Read a file. -/
def FileSystem.read (fs : FileSystem) (p : String) : Option String :=
  (fs.files.find? (fun e => e.1 == p)).map (fun e => e.2)

/-- Last element of a slash-separated path string. -/
def baseName (p : String) : String :=
  String.mk (p.data.reverse.takeWhile (fun c => c != '/')).reverse

/-- Assignment through a `*string` into the context. -/
def StringRef.store {ρ : Type} (r : StringRef) (ctx : Context ρ) (s : String) : Context ρ :=
  match r with
  | .ctxSource => { ctx with Source := s }
  | .ctxSourceGccMinusE => { ctx with SourceGccMinusE := s }

/-- Sample commands: the reader fails on a missing file, the filter drops the
line markers, the saver writes the buffer into the preproc directory, the
tag runner fails when `ctagsBroken`, the adder puts two prototypes in front. -/
def sampleCommandRun (ctagsBroken : Bool) :
    Command → World (List String) → World (List String) × Option String
  | .ReadFileAndStoreInContext f target, w =>
    match w.fs.read f.path with
    | none => (w, some "open: no such file")
    | some s => ({ w with ctx := target.store w.ctx s }, none)
  | .FilterSketchSource src, w =>
    ({ w with ctx := src.store w.ctx (String.mk ((src.deref w.ctx).data.filter (fun c => c != '#'))) },
      none)
  | .CTagsTargetFileSaver src name, w =>
    ({ w with fs := w.fs.write (w.ctx.PreprocPath.path ++ "/" ++ name) (src.deref w.ctx) }, none)
  | .CTagsRunner, w =>
    if ctagsBroken then (w, some "ctags: exit status 1")
    else ({ w with ctx := { w.ctx with Rest := ["setup", "loop"] } }, none)
  | .PrototypesAdder, w =>
    ({ w with ctx := { w.ctx with Source := "void blink();" ++ w.ctx.Source } }, none)

/-- Sample tool chain over string errors. The preprocessor fails when the
merged sketch is not on disk and otherwise writes the target file. -/
def sampleTools (ctagsBroken : Bool) : Collaborators String (List String) where
  FILE_CTAGS_TARGET_FOR_GCC_MINUS_E := "ctags_target_for_gcc_minus_e.cpp"
  Join := fun p s => ⟨p.path ++ "/" ++ s⟩
  Base := fun p => baseName p.path
  MkdirAll := fun p fs => ({ fs with dirs := p.path :: fs.dirs }, none)
  GCCPreprocRunner := fun src tgt _ w =>
    match w.fs.read src.path with
    | none => (w, some "fatal error: no such file or directory")
    | some s => ({ w with fs := w.fs.write tgt.path ("#1" ++ s) }, none)
  commandRun := sampleCommandRun ctagsBroken
  ringName := fun _ _ => []
  SketchSaveItemCpp := fun item dest fs =>
    (fs.write (dest ++ "/" ++ baseName item.Path ++ ".cpp") item.Source, none)
  WrapError := fun e => e

/-- The sample tool chain with a failing tag runner and a `SketchSaveItemCpp` that
would wipe the disk if it were ever called. -/
def wipingTools : Collaborators String (List String) :=
  { sampleTools true with
    SketchSaveItemCpp := fun _ _ _ => ({ files := [], dirs := [] }, none) }

/-- Sample context of a sketch `Blink.ino`. -/
def sampleContext : Context (List String) where
  PreprocPath := ⟨"/b/preproc"⟩
  SketchBuildPath := ⟨"/b/sketch"⟩
  SketchMainFileName := ⟨"/s/Blink.ino"⟩
  IncludeFolders := [⟨"/core"⟩]
  SourceGccMinusE := ""
  Source := "int led = 13;"
  Rest := []

/-- Sample world in which the merged sketch has been written to the build path. -/
def sampleWorld : World (List String) where
  ctx := sampleContext
  fs := { files := [("/b/sketch/Blink.ino.cpp", "int led = 13;")], dirs := ["/b/sketch"] }
  out := []

/-- Sample world in which the merged sketch is missing, so the preprocessor fails. -/
def brokenWorld : World (List String) where
  ctx := sampleContext
  fs := { files := [], dirs := [] }
  out := []

/-- The path of the preprocessor output in the sample worlds. -/
def sampleTarget : Path := ⟨"/b/preproc/ctags_target_for_gcc_minus_e.cpp"⟩

end builder

namespace librariesindex

/-! ## The index builder -/

/-- A name that is not yet in a non-nil `Libraries` map makes `extractLibraryIn` panic:
the Library is created and stored, but the nil outer `library` is dereferenced. -/
theorem extractLibraryIn_new_name (r : indexRelease) (m : Memory) (es : List (String × LibraryPtr))
    (hm : m.index.Libraries.entries = some es) (h : assocGet es r.Name = none) :
    extractLibraryIn r m = .error .nilPointerDereference := by
  simp [extractLibraryIn, GoMap.lookup, GoMap.assign, hm, h, extractReleaseIn]

/-- For a name already in the map, `extractLibraryIn` adds the release, with its
back-reference, to the existing Library and leaves the Index unchanged. -/
theorem extractLibraryIn_existing_name (r : indexRelease) (m : Memory) (a : Nat) (lib : Library)
    (rels : List (String × Release))
    (hfound : m.index.Libraries.lookup r.Name = some (some a))
    (hlib : m.heap.get? a = some lib) (hrel : lib.Releases.entries = some rels) :
    extractLibraryIn r m = .ok { m with
      heap := m.heap.set a
        { lib with Releases := ⟨some (assocSet rels r.Version (releaseFor r (some a)))⟩ } } := by
  have hlib2 : m.heap[a]? = some lib := by simpa using hlib
  simp [extractLibraryIn, hfound, extractReleaseIn, hlib2, GoMap.assign, hrel, releaseFor]

/-- Every catalogue with a first record ends in a nil pointer dereference. -/
theorem extractIndex_nonempty (r : indexRelease) (rs : List indexRelease) :
    extractIndex ⟨r :: rs⟩ = .error .nilPointerDereference := by
  have h := extractLibraryIn_new_name r { index := { Libraries := GoMap.empty }, heap := [] } []
    rfl rfl
  simp [extractIndex, extractLoop, h]

/-- C3: the index builder does not create the Index of a parsed catalogue. On the
one-record catalogue `[Servo 1.1.2]` it panics with a nil pointer dereference,
and no catalogue with at least one record yields an Index at all, so no Library
is ever stored under a record's name. -/
theorem extractIndex_builds_no_index :
    extractIndex ⟨[sampleRecord]⟩ = .error .nilPointerDereference ∧
      ∀ (r : indexRelease) (rs : List indexRelease), (extractIndex ⟨r :: rs⟩).toOption = none := by
  refine ⟨extractIndex_nonempty _ _, ?_⟩
  intro r rs
  rw [extractIndex_nonempty]
  rfl

/-- C9: `extractIndex` is not total. For every catalogue with at least one record
the first record's name is new, `extractLibraryIn` passes the nil outer
`library` to `extractReleaseIn`, and the run ends in a nil pointer dereference. -/
theorem extractIndex_panics_on_first_record (r : indexRelease) (rs : List indexRelease) :
    extractLibraryIn r emptyMemory = .error .nilPointerDereference ∧
      extractIndex ⟨r :: rs⟩ = .error .nilPointerDereference :=
  ⟨extractLibraryIn_new_name r emptyMemory [] rfl rfl, extractIndex_nonempty r rs⟩

end librariesindex

namespace builder

variable {ε ρ : Type}

/-! ## The command loop -/

theorem runCommands_cons_some (x : Collaborators ε ρ) (c : Command) (cs : List Command)
    (w : World ρ) (e : ε) (h : (x.commandRun c (PrintRingNameIfDebug x w c)).2 = some e) :
    runCommands x (c :: cs) w =
      { trace := [{ call := .Run c, pre := PrintRingNameIfDebug x w c,
                    post := (x.commandRun c (PrintRingNameIfDebug x w c)).1, err := some e }],
        world := (x.commandRun c (PrintRingNameIfDebug x w c)).1,
        flow := .returned (x.WrapError (some e)) } := by
  rw [runCommands]
  simp only [h]

theorem runCommands_cons_none (x : Collaborators ε ρ) (c : Command) (cs : List Command)
    (w : World ρ) (h : (x.commandRun c (PrintRingNameIfDebug x w c)).2 = none) :
    runCommands x (c :: cs) w =
      { trace := { call := .Run c, pre := PrintRingNameIfDebug x w c,
                   post := (x.commandRun c (PrintRingNameIfDebug x w c)).1, err := none } ::
                 (runCommands x cs (x.commandRun c (PrintRingNameIfDebug x w c)).1).trace,
        world := (runCommands x cs (x.commandRun c (PrintRingNameIfDebug x w c)).1).world,
        flow := (runCommands x cs (x.commandRun c (PrintRingNameIfDebug x w c)).1).flow } := by
  rw [runCommands]
  simp only [h]

/-- The loop either stops at the first failing command, returning its wrapped
error, or runs every command successfully and falls through. -/
theorem runCommands_shape (x : Collaborators ε ρ) (cs : List Command) (w : World ρ) :
    (∃ init ev e, (runCommands x cs w).trace = init ++ [ev] ∧ (∀ a ∈ init, a.err = none) ∧
        ev.err = some e ∧ (runCommands x cs w).flow = .returned (x.WrapError (some e))) ∨
    ((runCommands x cs w).trace.length = cs.length ∧
        (∀ a ∈ (runCommands x cs w).trace, a.err = none) ∧
        (runCommands x cs w).flow = .fallthrough) := by
  induction cs generalizing w with
  | nil => right; simp [runCommands]
  | cons c cs ih =>
    rcases h : (x.commandRun c (PrintRingNameIfDebug x w c)).2 with _ | e
    · rw [runCommands_cons_none x c cs w h]
      rcases ih (x.commandRun c (PrintRingNameIfDebug x w c)).1 with
        ⟨init, ev, e, ht, hinit, hev, hflow⟩ | ⟨hlen, hall, hflow⟩
      · left
        refine ⟨⟨.Run c, PrintRingNameIfDebug x w c, (x.commandRun c (PrintRingNameIfDebug x w c)).1, none⟩ :: init,
          ev, e, ?_, ?_, hev, hflow⟩
        · simp only [ht, List.cons_append]
        · intro a ha
          rcases List.mem_cons.1 ha with rfl | ha
          · rfl
          · exact hinit a ha
      · right
        refine ⟨by simp [hlen], ?_, hflow⟩
        intro a ha
        rcases List.mem_cons.1 ha with rfl | ha
        · rfl
        · exact hall a ha
    · rw [runCommands_cons_some x c cs w e h]
      left
      exact ⟨[], _, e, rfl, by simp, rfl, rfl⟩

/-- The calls of the loop are the commands of the slice, in order. -/
theorem runCommands_calls (x : Collaborators ε ρ) (cs : List Command) (w : World ρ) :
    (runCommands x cs w).trace.map (fun ev => ev.call) =
      (cs.take (runCommands x cs w).trace.length).map Call.Run := by
  induction cs generalizing w with
  | nil => simp [runCommands]
  | cons c cs ih =>
    rcases h : (x.commandRun c (PrintRingNameIfDebug x w c)).2 with _ | e
    · rw [runCommands_cons_none x c cs w h]
      simpa using ih _
    · rw [runCommands_cons_some x c cs w e h]
      simp

theorem runCommands_sound (x : Collaborators ε ρ) (cs : List Command) (w : World ρ) :
    ∀ ev ∈ (runCommands x cs w).trace, ev.sound x := by
  induction cs generalizing w with
  | nil => simp [runCommands]
  | cons c cs ih =>
    rcases h : (x.commandRun c (PrintRingNameIfDebug x w c)).2 with _ | e
    · rw [runCommands_cons_none x c cs w h]
      intro ev hev
      rcases List.mem_cons.1 hev with rfl | hev
      · simp [Event.sound, Collaborators.exec, h]
      · exact ih _ ev hev
    · rw [runCommands_cons_some x c cs w e h]
      simp [Event.sound, Collaborators.exec, h]

theorem runCommands_chain (x : Collaborators ε ρ) (cs : List Command) (w : World ρ)
    (a : Event ε ρ) (hctx : a.post.ctx = w.ctx) (hfs : a.post.fs = w.fs) :
    List.Chain Event.handsOver a (runCommands x cs w).trace := by
  induction cs generalizing w a with
  | nil => simp [runCommands]
  | cons c cs ih =>
    rcases h : (x.commandRun c (PrintRingNameIfDebug x w c)).2 with _ | e
    · rw [runCommands_cons_none x c cs w h]
      simp only [List.chain_cons]
      exact ⟨by simp [Event.handsOver, PrintRingNameIfDebug, hctx, hfs], ih _ _ rfl rfl⟩
    · rw [runCommands_cons_some x c cs w e h]
      simp [Event.handsOver, PrintRingNameIfDebug, hctx, hfs]

theorem runCommands_world (x : Collaborators ε ρ) (cs : List Command) (w : World ρ)
    (a : Event ε ρ) (ha : a.post = w) :
    ((a :: (runCommands x cs w).trace).getLast?).map (fun ev => ev.post) =
      some (runCommands x cs w).world := by
  induction cs generalizing w a with
  | nil => simp [runCommands, ha]
  | cons c cs ih =>
    rcases h : (x.commandRun c (PrintRingNameIfDebug x w c)).2 with _ | e
    · rw [runCommands_cons_none x c cs w h]
      have := ih (x.commandRun c (PrintRingNameIfDebug x w c)).1
        { call := .Run c, pre := PrintRingNameIfDebug x w c,
          post := (x.commandRun c (PrintRingNameIfDebug x w c)).1,
          err := none } rfl
      simpa [List.getLast?_cons_cons] using this
    · rw [runCommands_cons_some x c cs w e h]
      simp

/-! ## The pipeline -/

/-- The five ways `Run` can end. -/
theorem Run_cases (x : Collaborators ε ρ) (w : World ρ) :
    (∃ e, (mkdirEvent x w).err = some e ∧
      Run x w = ⟨[mkdirEvent x w], (mkdirEvent x w).post, x.WrapError (some e)⟩) ∨
    ((mkdirEvent x w).err = none ∧ ∃ e, (preprocEvent x w).err = some e ∧
      Run x w = ⟨[mkdirEvent x w, preprocEvent x w], (preprocEvent x w).post,
        x.WrapError (some e)⟩) ∨
    ((mkdirEvent x w).err = none ∧ (preprocEvent x w).err = none ∧
      ∃ err, (loopOf x w).flow = .returned err ∧
      Run x w = ⟨mkdirEvent x w :: preprocEvent x w :: (loopOf x w).trace, (loopOf x w).world,
        err⟩) ∨
    ((mkdirEvent x w).err = none ∧ (preprocEvent x w).err = none ∧
      (loopOf x w).flow = .fallthrough ∧ ∃ e, (saveEvent x (loopOf x w).world).err = some e ∧
      Run x w = ⟨mkdirEvent x w :: preprocEvent x w ::
          ((loopOf x w).trace ++ [saveEvent x (loopOf x w).world]),
        (saveEvent x (loopOf x w).world).post, x.WrapError (some e)⟩) ∨
    ((mkdirEvent x w).err = none ∧ (preprocEvent x w).err = none ∧
      (loopOf x w).flow = .fallthrough ∧ (saveEvent x (loopOf x w).world).err = none ∧
      Run x w = ⟨mkdirEvent x w :: preprocEvent x w ::
          ((loopOf x w).trace ++ [saveEvent x (loopOf x w).world]),
        (saveEvent x (loopOf x w).world).post, none⟩) := by
  unfold Run
  simp only []
  split
  · rename_i e h1
    exact Or.inl ⟨e, h1, rfl⟩
  · rename_i h1
    right
    split
    · rename_i e h2
      exact Or.inl ⟨h1, e, h2, rfl⟩
    · rename_i h2
      right
      split
      · rename_i err hflow
        exact Or.inl ⟨h1, h2, err, hflow, rfl⟩
      · rename_i hflow
        right
        split
        · rename_i e h4
          exact Or.inl ⟨h1, h2, hflow, e, h4, rfl⟩
        · rename_i h4
          exact Or.inr ⟨h1, h2, hflow, h4, rfl⟩

theorem loopOf_fallthrough (x : Collaborators ε ρ) (w : World ρ)
    (h : (loopOf x w).flow = .fallthrough) :
    (loopOf x w).trace.length = 5 ∧ ∀ a ∈ (loopOf x w).trace, a.err = none := by
  rcases runCommands_shape x (commands x (targetFilePath x w.ctx)) (preprocEvent x w).post with
    ⟨_, _, _, _, _, _, hflow⟩ | ⟨hlen, hall, _⟩
  · rw [loopOf] at h
    rw [h] at hflow
    cases hflow
  · exact ⟨by simpa [commands] using hlen, hall⟩

theorem loopOf_returned (x : Collaborators ε ρ) (w : World ρ) (err : Option ε)
    (h : (loopOf x w).flow = .returned err) :
    ∃ init ev e, (loopOf x w).trace = init ++ [ev] ∧ (∀ a ∈ init, a.err = none) ∧
      ev.err = some e ∧ err = x.WrapError (some e) := by
  rcases runCommands_shape x (commands x (targetFilePath x w.ctx)) (preprocEvent x w).post with
    ⟨init, ev, e, ht, hinit, hev, hflow⟩ | ⟨_, _, hflow⟩
  · rw [loopOf] at h
    rw [h] at hflow
    exact ⟨init, ev, e, ht, hinit, hev, by injection hflow⟩
  · rw [loopOf] at h
    rw [h] at hflow
    cases hflow

/-- A run either stops at its first failing stage and returns that stage's
wrapped error, or executes eight successful stages and returns nil. -/
theorem Run_shape (x : Collaborators ε ρ) (w : World ρ) :
    (∃ init ev e, (Run x w).trace = init ++ [ev] ∧ (∀ a ∈ init, a.err = none) ∧
        ev.err = some e ∧ (Run x w).err = x.WrapError (some e)) ∨
    ((Run x w).trace.length = 8 ∧ (∀ a ∈ (Run x w).trace, a.err = none) ∧
        (Run x w).err = none) := by
  rcases Run_cases x w with ⟨e, h1, hr⟩ | ⟨h1, e, h2, hr⟩ | ⟨h1, h2, err, hf, hr⟩ |
    ⟨h1, h2, hf, e, h4, hr⟩ | ⟨h1, h2, hf, h4, hr⟩
  · left
    exact ⟨[], _, e, by rw [hr]; rfl, by simp, h1, by rw [hr]⟩
  · left
    refine ⟨[mkdirEvent x w], _, e, by rw [hr]; rfl, ?_, h2, by rw [hr]⟩
    simp [h1]
  · left
    obtain ⟨init, ev, e, ht, hinit, hev, herr⟩ := loopOf_returned x w err hf
    refine ⟨mkdirEvent x w :: preprocEvent x w :: init, ev, e, ?_, ?_, hev, by rw [hr]; exact herr⟩
    · rw [hr]; simp [ht]
    · intro a ha
      simp only [List.mem_cons] at ha
      rcases ha with rfl | rfl | ha
      · exact h1
      · exact h2
      · exact hinit a ha
  · left
    obtain ⟨_, hall⟩ := loopOf_fallthrough x w hf
    refine ⟨mkdirEvent x w :: preprocEvent x w :: (loopOf x w).trace, _, e, ?_, ?_, h4, by rw [hr]⟩
    · rw [hr]; simp
    · intro a ha
      simp only [List.mem_cons] at ha
      rcases ha with rfl | rfl | ha
      · exact h1
      · exact h2
      · exact hall a ha
  · right
    obtain ⟨hlen, hall⟩ := loopOf_fallthrough x w hf
    refine ⟨by rw [hr]; simp [hlen], ?_, by rw [hr]⟩
    intro a ha
    rw [hr] at ha
    simp only [List.mem_cons, List.mem_append, List.mem_singleton, List.not_mem_nil,
      or_false] at ha
    rcases ha with rfl | rfl | ha | rfl
    · exact h1
    · exact h2
    · exact hall a ha
    · exact h4

theorem expectedCalls_eq (x : Collaborators ε ρ) (ctx last : Context ρ) :
    expectedCalls x ctx last =
      .MkdirAll ctx.PreprocPath ::
      .GCCPreprocRunner (sourceFile x ctx) (targetFilePath x ctx) ctx.IncludeFolders ::
      ((commands x (targetFilePath x ctx)).map Call.Run ++ [saveCall last]) := rfl

theorem loopOf_calls (x : Collaborators ε ρ) (w : World ρ) :
    (loopOf x w).trace.map (fun ev => ev.call) =
      ((commands x (targetFilePath x w.ctx)).map Call.Run).take (loopOf x w).trace.length := by
  rw [← List.map_take]
  exact runCommands_calls x (commands x (targetFilePath x w.ctx)) (preprocEvent x w).post

theorem loopOf_length_le (x : Collaborators ε ρ) (w : World ρ) :
    (loopOf x w).trace.length ≤ 5 := by
  have h := congrArg List.length (loopOf_calls x w)
  simp only [List.length_map, List.length_take, commands, List.length_cons, List.length_nil] at h
  omega

/-- The calls of a run are an initial segment of the expected calls; the final
save is built from the context held when the run returns. -/
theorem Run_calls (x : Collaborators ε ρ) (w : World ρ) :
    (Run x w).trace.map (fun ev => ev.call) =
      (expectedCalls x w.ctx (Run x w).world.ctx).take (Run x w).trace.length := by
  have hlen5 : ((commands x (targetFilePath x w.ctx)).map Call.Run).length = 5 := by
    simp [commands]
  rcases Run_cases x w with ⟨e, h1, hr⟩ | ⟨h1, e, h2, hr⟩ | ⟨h1, h2, err, hf, hr⟩ |
    ⟨h1, h2, hf, e, h4, hr⟩ | ⟨h1, h2, hf, h4, hr⟩
  · rw [hr]; simp [expectedCalls, mkdirEvent]
  · rw [hr]; simp [expectedCalls, mkdirEvent, preprocEvent]
  · have hlen := loopOf_length_le x w
    rw [hr, expectedCalls_eq]
    simp only [List.map_cons, List.length_cons, List.take_succ_cons]
    rw [List.take_append_of_le_length (by rw [hlen5]; exact hlen), loopOf_calls]
    rfl
  · obtain ⟨hlen, -⟩ := loopOf_fallthrough x w hf
    have hc := loopOf_calls x w
    rw [hlen, List.take_of_length_le (by rw [hlen5])] at hc
    rw [hr, expectedCalls_eq]
    simp only [List.map_cons, List.length_cons, List.take_succ_cons, List.map_append,
      List.length_append, List.length_nil, hlen, hc]
    simp [hlen5, saveEvent, mkdirEvent, preprocEvent]
  · obtain ⟨hlen, -⟩ := loopOf_fallthrough x w hf
    have hc := loopOf_calls x w
    rw [hlen, List.take_of_length_le (by rw [hlen5])] at hc
    rw [hr, expectedCalls_eq]
    simp only [List.map_cons, List.length_cons, List.take_succ_cons, List.map_append,
      List.length_append, List.length_nil, hlen, hc]
    simp [hlen5, saveEvent, mkdirEvent, preprocEvent]

theorem Run_sound (x : Collaborators ε ρ) (w : World ρ) :
    ∀ ev ∈ (Run x w).trace, ev.sound x := by
  have hloop : ∀ ev ∈ (loopOf x w).trace, ev.sound x :=
    runCommands_sound x (commands x (targetFilePath x w.ctx)) (preprocEvent x w).post
  have hmk : (mkdirEvent x w).sound x := ⟨rfl, rfl⟩
  have hpre : (preprocEvent x w).sound x := ⟨rfl, rfl⟩
  have hsave : (saveEvent x (loopOf x w).world).sound x := ⟨rfl, rfl⟩
  intro ev hev
  rcases Run_cases x w with ⟨e, h1, hr⟩ | ⟨h1, e, h2, hr⟩ | ⟨h1, h2, err, hf, hr⟩ |
    ⟨h1, h2, hf, e, h4, hr⟩ | ⟨h1, h2, hf, h4, hr⟩ <;>
  · rw [hr] at hev
    simp only [List.mem_cons, List.mem_append, List.mem_singleton, List.not_mem_nil,
      or_false] at hev
    aesop

theorem Run_head (x : Collaborators ε ρ) (w : World ρ) :
    (Run x w).trace.head? = some (mkdirEvent x w) := by
  rcases Run_cases x w with ⟨e, h1, hr⟩ | ⟨h1, e, h2, hr⟩ | ⟨h1, h2, err, hf, hr⟩ |
    ⟨h1, h2, hf, e, h4, hr⟩ | ⟨h1, h2, hf, h4, hr⟩ <;>
  · rw [hr]; rfl

/-- The world when `Run` returns is the world the last executed stage left. -/
theorem Run_world (x : Collaborators ε ρ) (w : World ρ) :
    (Run x w).trace.getLast?.map (fun ev => ev.post) = some (Run x w).world := by
  have hloop := runCommands_world x (commands x (targetFilePath x w.ctx)) (preprocEvent x w).post
    (preprocEvent x w) rfl
  rcases Run_cases x w with ⟨e, h1, hr⟩ | ⟨h1, e, h2, hr⟩ | ⟨h1, h2, err, hf, hr⟩ |
    ⟨h1, h2, hf, e, h4, hr⟩ | ⟨h1, h2, hf, h4, hr⟩
  · rw [hr]; rfl
  · rw [hr]; rfl
  · rw [hr]
    simp only [List.getLast?_cons_cons]
    exact hloop
  · rw [hr]
    show ((mkdirEvent x w :: preprocEvent x w :: (loopOf x w).trace) ++
      [saveEvent x (loopOf x w).world]).getLast?.map (fun ev => ev.post) = _
    rw [List.getLast?_concat]
    rfl
  · rw [hr]
    show ((mkdirEvent x w :: preprocEvent x w :: (loopOf x w).trace) ++
      [saveEvent x (loopOf x w).world]).getLast?.map (fun ev => ev.post) = _
    rw [List.getLast?_concat]
    rfl

/-- Between two consecutive stages `Run` changes neither the context nor the disk. -/
theorem Run_handover (x : Collaborators ε ρ) (w : World ρ) : Handover (Run x w).trace := by
  have hloop : List.Chain Event.handsOver (preprocEvent x w) (loopOf x w).trace :=
    runCommands_chain x (commands x (targetFilePath x w.ctx)) (preprocEvent x w).post
      (preprocEvent x w) rfl rfl
  have h12 : Event.handsOver (mkdirEvent x w) (preprocEvent x w) := ⟨rfl, rfl⟩
  have hlast := runCommands_world x (commands x (targetFilePath x w.ctx)) (preprocEvent x w).post
    (preprocEvent x w) rfl
  have hsave : Handover (mkdirEvent x w :: preprocEvent x w ::
      ((loopOf x w).trace ++ [saveEvent x (loopOf x w).world])) := by
    show List.Chain' Event.handsOver ((mkdirEvent x w :: preprocEvent x w :: (loopOf x w).trace) ++
      [saveEvent x (loopOf x w).world])
    rw [List.chain'_append]
    refine ⟨List.Chain'.cons h12 hloop, List.chain'_singleton _, ?_⟩
    intro a ha b hb
    rw [List.getLast?_cons_cons] at ha
    simp only [List.head?_cons, Option.mem_def, Option.some.injEq] at hb
    subst hb
    have hpost : a.post = (loopOf x w).world := by
      have h := hlast
      rw [show (preprocEvent x w :: (runCommands x (commands x (targetFilePath x w.ctx))
        (preprocEvent x w).post).trace).getLast? = some a from ha] at h
      simpa using h
    exact ⟨by rw [hpost]; rfl, by rw [hpost]; rfl⟩
  rcases Run_cases x w with ⟨e, h1, hr⟩ | ⟨h1, e, h2, hr⟩ | ⟨h1, h2, err, hf, hr⟩ |
    ⟨h1, h2, hf, e, h4, hr⟩ | ⟨h1, h2, hf, h4, hr⟩
  · rw [hr]; simp [Handover]
  · rw [hr]; simp [Handover, h12]
  · rw [hr]
    exact List.Chain'.cons h12 hloop
  · rw [hr]
    exact hsave
  · rw [hr]
    exact hsave

/-! ## Facts about the stage at a given position -/

theorem chain'_getElem? {α : Type} {R : α → α → Prop} {l : List α} (h : l.Chain' R)
    (k : Nat) (a b : α) (ha : l[k]? = some a) (hb : l[k + 1]? = some b) : R a b := by
  induction l generalizing k with
  | nil => simp at ha
  | cons c l ih =>
    cases l with
    | nil => simp at hb
    | cons d l =>
      rw [List.chain'_cons] at h
      cases k with
      | zero =>
        simp only [List.getElem?_cons_zero, List.getElem?_cons_succ, Option.some.injEq] at ha hb
        subst ha; subst hb
        exact h.1
      | succ k =>
        rw [List.getElem?_cons_succ] at ha hb
        exact ih h.2 k ha hb

theorem Run_failure_is_last (x : Collaborators ε ρ) (w : World ρ) (k : Nat) (ev : Event ε ρ)
    (e : ε) (hk : (Run x w).trace[k]? = some ev) (he : ev.err = some e) :
    (Run x w).trace.length = k + 1 ∧ (Run x w).err = x.WrapError (some e) := by
  rcases Run_shape x w with ⟨init, ev0, e0, ht, hinit, hev0, herr⟩ | ⟨-, hall, -⟩
  · rw [ht] at hk
    rcases Nat.lt_or_ge k init.length with hlt | hge
    · rw [List.getElem?_append_left hlt] at hk
      have := hinit ev (List.getElem?_mem hk)
      rw [he] at this
      cases this
    · rw [List.getElem?_append_right hge] at hk
      have hk0 : k - init.length = 0 := by
        by_contra hne
        obtain ⟨m, hm⟩ := Nat.exists_eq_succ_of_ne_zero hne
        rw [hm] at hk
        simp at hk
      rw [hk0] at hk
      simp only [List.getElem?_cons_zero, Option.some.injEq] at hk
      subst hk
      rw [hev0] at he
      cases he
      refine ⟨?_, herr⟩
      rw [ht]
      simp
      omega
  · have := hall ev (List.getElem?_mem hk)
    rw [he] at this
    cases this

theorem Run_all_ok (x : Collaborators ε ρ) (w : World ρ)
    (hall : ∀ ev ∈ (Run x w).trace, ev.err = none) :
    (Run x w).trace.length = 8 ∧ (Run x w).err = none := by
  rcases Run_shape x w with ⟨init, ev0, e0, ht, -, hev0, -⟩ | ⟨hlen, -, herr⟩
  · have := hall ev0 (by rw [ht]; simp)
    rw [hev0] at this
    cases this
  · exact ⟨hlen, herr⟩

theorem Run_length_le (x : Collaborators ε ρ) (w : World ρ) : (Run x w).trace.length ≤ 8 := by
  have h := congrArg List.length (Run_calls x w)
  simp only [List.length_map, List.length_take, expectedCalls, List.length_cons,
    List.length_nil] at h
  omega

theorem Run_call_at (x : Collaborators ε ρ) (w : World ρ) (k : Nat) (ev : Event ε ρ)
    (hk : (Run x w).trace[k]? = some ev) :
    (expectedCalls x w.ctx (Run x w).world.ctx)[k]? = some ev.call := by
  have hlt : k < (Run x w).trace.length := (List.getElem?_eq_some.1 hk).1
  have h := congrArg (fun l => l[k]?) (Run_calls x w)
  simp only [List.getElem?_map, hk, Option.map_some', List.getElem?_take, hlt, if_true] at h
  exact h.symm

theorem Run_stages (x : Collaborators ε ρ) (w : World ρ) :
    (Run x w).stages = stageOrder.take (Run x w).trace.length := by
  have h := congrArg (List.map Call.stage) (Run_calls x w)
  rw [List.map_map, List.map_take] at h
  exact h

theorem Run_earlier_ok (x : Collaborators ε ρ) (w : World ρ) (j : Nat) (a : Event ε ρ)
    (hj : (Run x w).trace[j]? = some a) (hlt : j + 1 < (Run x w).trace.length) :
    a.err = none := by
  cases h : a.err with
  | none => rfl
  | some e =>
    have := (Run_failure_is_last x w j a e hj h).1
    omega

theorem Run_next_stage (x : Collaborators ε ρ) (w : World ρ) (k : Nat) (ev : Event ε ρ)
    (hk : (Run x w).trace[k]? = some ev) (hok : ev.err = none) (hlt : k + 1 < 8) :
    ∃ next, (Run x w).trace[k + 1]? = some next := by
  have hklt : k < (Run x w).trace.length := (List.getElem?_eq_some.1 hk).1
  have hlen : k + 1 < (Run x w).trace.length := by
    rcases Run_shape x w with ⟨init, ev0, e0, ht, -, hev0, -⟩ | ⟨hlen, -, -⟩
    · by_contra hge
      have hlast : k = init.length := by
        have := congrArg List.length ht
        simp at this
        omega
      rw [ht, hlast] at hk
      simp at hk
      subst hk
      rw [hev0] at hok
      cases hok
    · omega
  exact ⟨_, List.getElem?_eq_getElem hlen⟩

theorem Run_handover_at (x : Collaborators ε ρ) (w : World ρ) (k : Nat) (a b : Event ε ρ)
    (ha : (Run x w).trace[k]? = some a) (hb : (Run x w).trace[k + 1]? = some b) :
    b.pre.ctx = a.post.ctx ∧ b.pre.fs = a.post.fs :=
  chain'_getElem? (Run_handover x w) k a b ha hb

theorem Run_last_at (x : Collaborators ε ρ) (w : World ρ) (k : Nat) (ev : Event ε ρ)
    (hk : (Run x w).trace[k]? = some ev) (hlen : (Run x w).trace.length = k + 1) :
    (Run x w).world = ev.post := by
  have h := Run_world x w
  rw [List.getLast?_eq_getElem?, hlen] at h
  simp only [Nat.add_sub_cancel, hk, Option.map_some', Option.some.injEq] at h
  exact h.symm

/-! ## Properties of `ContainerAddPrototypes.Run` -/

theorem sampleTools_wrapKeepsError (b : Bool) : (sampleTools b).wrapKeepsError := by
  intro e h
  cases h

/-- C1: `Run` aborts on the first failing stage. If the stage at position `k` of
the run (mkdir, preprocessor, the five commands, final save) returns an error,
then, `WrapError` keeping errors non-nil, `Run` returns a non-nil error, the
stages executed are exactly the first `k + 1` of the pipeline, so no stage
after `k` runs; in particular the sketch is not saved unless the failing stage
is the save itself. -/
theorem Run_aborts_at_first_failure (x : Collaborators ε ρ) (w : World ρ) (k : Nat)
    (ev : Event ε ρ) (e : ε) (hk : (Run x w).trace[k]? = some ev) (he : ev.err = some e)
    (hW : x.wrapKeepsError) :
    (Run x w).err ≠ none ∧ (Run x w).trace.length = k + 1 ∧
      (Run x w).stages = stageOrder.take (k + 1) ∧
      (k < 7 → Stage.SketchSaveItemCpp ∉ (Run x w).stages) := by
  obtain ⟨hlen, herr⟩ := Run_failure_is_last x w k ev e hk he
  have hst : (Run x w).stages = stageOrder.take (k + 1) := by rw [Run_stages, hlen]
  refine ⟨by rw [herr]; exact hW e, hlen, hst, ?_⟩
  intro hk7
  rw [hst]
  have h8 : k < 7 := hk7
  interval_cases k <;> simp [stageOrder]

theorem Run_aborts_at_first_failure_witness :
    ∃ ev, (Run (sampleTools true) sampleWorld).trace[5]? = some ev ∧
      ev.err = some "ctags: exit status 1" ∧
      (Run (sampleTools true) sampleWorld).err ≠ none ∧
      (Run (sampleTools true) sampleWorld).trace.length = 5 + 1 ∧
      (Run (sampleTools true) sampleWorld).stages = stageOrder.take (5 + 1) ∧
      (5 < 7 → Stage.SketchSaveItemCpp ∉ (Run (sampleTools true) sampleWorld).stages) :=
  ⟨_, rfl, rfl, Run_aborts_at_first_failure (sampleTools true) sampleWorld 5 _
    "ctags: exit status 1" rfl rfl (sampleTools_wrapKeepsError true)⟩

/-- C2: in a run where every stage succeeds, the stages executed are the eight
stages of the pipeline, each exactly once and in the fixed order (mkdir,
preprocessor, read, filter, tag-target saver, tag runner, prototypes adder,
save); the first stage starts from the initial world, every later stage starts
from the context and disk the previous stage left, and every recorded result is
the collaborator's result on the world it received. -/
theorem Run_success_runs_every_stage_in_order (x : Collaborators ε ρ) (w : World ρ)
    (hall : ∀ ev ∈ (Run x w).trace, ev.err = none) :
    (Run x w).stages = stageOrder ∧ stageOrder.Nodup ∧
      (Run x w).trace.head?.map (fun ev => ev.pre) = some w ∧
      Handover (Run x w).trace ∧
      (∀ ev ∈ (Run x w).trace, ev.sound x) ∧
      (Run x w).err = none := by
  obtain ⟨hlen, herr⟩ := Run_all_ok x w hall
  refine ⟨?_, by decide, ?_, Run_handover x w, Run_sound x w, herr⟩
  · rw [Run_stages, hlen]
    rfl
  · rw [Run_head]
    rfl

theorem Run_success_runs_every_stage_in_order_witness :
    (∀ ev ∈ (Run (sampleTools false) sampleWorld).trace, ev.err = none) ∧
      (Run (sampleTools false) sampleWorld).stages = stageOrder ∧ stageOrder.Nodup ∧
      (Run (sampleTools false) sampleWorld).trace.head?.map (fun ev => ev.pre) = some sampleWorld ∧
      Handover (Run (sampleTools false) sampleWorld).trace ∧
      (∀ ev ∈ (Run (sampleTools false) sampleWorld).trace, ev.sound (sampleTools false)) ∧
      (Run (sampleTools false) sampleWorld).err = none :=
  have hall : ∀ ev ∈ (Run (sampleTools false) sampleWorld).trace, ev.err = none := by
    intro ev hev
    have h : (Run (sampleTools false) sampleWorld).trace.all (fun a => a.err.isNone) = true := by
      decide
    exact Option.isNone_iff_eq_none.1 (List.all_eq_true.1 h ev hev)
  ⟨hall, Run_success_runs_every_stage_in_order (sampleTools false) sampleWorld hall⟩

/-- C4: the final save is reached only at position 7, after the mkdir, the
preprocessor and all five commands have succeeded; and when `Run` returns nil
(`WrapError` keeping errors non-nil) the save is the call
`SketchSaveItemCpp(Item{MainFile.Name.String(), []byte(ctx.Source)},
SketchBuildPath.String())` built from the context exactly as `PrototypesAdder`
left it, it starts from that context and disk, and it succeeded. -/
theorem Run_saves_source_left_by_PrototypesAdder (x : Collaborators ε ρ) (w : World ρ) :
    (∀ k ev, (Run x w).trace[k]? = some ev → ev.call.stage = Stage.SketchSaveItemCpp →
        k = 7 ∧ (Run x w).stages = stageOrder ∧
        ∀ j a, j < 7 → (Run x w).trace[j]? = some a → a.err = none) ∧
    (x.wrapKeepsError → (Run x w).err = none →
      ∃ adder save, (Run x w).trace[6]? = some adder ∧ (Run x w).trace[7]? = some save ∧
        adder.call = .Run .PrototypesAdder ∧ adder.err = none ∧
        save.call = .SketchSaveItemCpp
          { Path := adder.post.ctx.SketchMainFileName.path, Source := adder.post.ctx.Source }
          adder.post.ctx.SketchBuildPath.path ∧
        save.pre.ctx = adder.post.ctx ∧ save.pre.fs = adder.post.fs ∧ save.err = none) := by
  constructor
  · intro k ev hk hst
    have hcall := Run_call_at x w k ev hk
    have hklt : k < (Run x w).trace.length := (List.getElem?_eq_some.1 hk).1
    have hle := Run_length_le x w
    have hk7 : k = 7 := by
      have hk8 : k < 8 := by omega
      interval_cases k <;>
        first
        | rfl
        | (simp only [expectedCalls, List.getElem?_cons_zero, List.getElem?_cons_succ,
            Option.some.injEq] at hcall
           rw [← hcall] at hst
           simp [Call.stage] at hst)
    subst hk7
    have hlen : (Run x w).trace.length = 8 := by omega
    refine ⟨rfl, by rw [Run_stages, hlen]; rfl, ?_⟩
    intro j a hj ha
    exact Run_earlier_ok x w j a ha (by omega)
  · intro hW herr
    have hall : ∀ ev ∈ (Run x w).trace, ev.err = none := by
      intro ev hev
      obtain ⟨k, hk⟩ := List.mem_iff_getElem?.1 hev
      cases h : ev.err with
      | none => rfl
      | some e =>
        have := (Run_failure_is_last x w k ev e hk h).2
        rw [herr] at this
        exact absurd this.symm (hW e)
    obtain ⟨hlen, -⟩ := Run_all_ok x w hall
    have h6 : (Run x w).trace[6]? = some ((Run x w).trace[6]) := List.getElem?_eq_getElem (by omega)
    have h7 : (Run x w).trace[7]? = some ((Run x w).trace[7]) := List.getElem?_eq_getElem (by omega)
    have hc6 := Run_call_at x w 6 _ h6
    have hc7 := Run_call_at x w 7 _ h7
    simp only [expectedCalls, List.getElem?_cons_zero, List.getElem?_cons_succ,
      Option.some.injEq] at hc6 hc7
    have hho := Run_handover_at x w 6 _ _ h6 h7
    have hworld := Run_last_at x w 7 _ h7 hlen
    have hsound := (Run_sound x w _ (List.getElem?_mem h7)).1
    have hctx : (Run x w).world.ctx = ((Run x w).trace[7]).pre.ctx := by
      rw [hworld, hsound, ← hc7]
      rfl
    refine ⟨_, _, h6, h7, hc6.symm, hall _ (List.getElem?_mem h6), ?_, hho.1, hho.2,
      hall _ (List.getElem?_mem h7)⟩
    rw [← hc7, hctx, hho.1]
    rfl

theorem Run_saves_source_left_by_PrototypesAdder_witness :
    (sampleTools false).wrapKeepsError ∧ (Run (sampleTools false) sampleWorld).err = none ∧
      ∃ adder save, (Run (sampleTools false) sampleWorld).trace[6]? = some adder ∧
        (Run (sampleTools false) sampleWorld).trace[7]? = some save ∧
        adder.call = .Run .PrototypesAdder ∧ adder.err = none ∧
        save.call = .SketchSaveItemCpp
          { Path := adder.post.ctx.SketchMainFileName.path, Source := adder.post.ctx.Source }
          adder.post.ctx.SketchBuildPath.path ∧
        save.pre.ctx = adder.post.ctx ∧ save.pre.fs = adder.post.fs ∧ save.err = none :=
  ⟨sampleTools_wrapKeepsError false, rfl,
    (Run_saves_source_left_by_PrototypesAdder (sampleTools false) sampleWorld).2
      (sampleTools_wrapKeepsError false) rfl⟩

/-- C5: when the stage at position `k` fails with error `e`, all earlier stages
having succeeded, `Run` returns exactly `i18n.WrapError(e)`, where `e` is the
error the collaborator returned for that call (for `k = 1` the error of
`GCCPreprocRunner`); the result is non-nil as soon as `WrapError` keeps errors
non-nil. -/
theorem Run_returns_wrapped_error_of_failing_stage (x : Collaborators ε ρ) (w : World ρ)
    (k : Nat) (ev : Event ε ρ) (e : ε) (hk : (Run x w).trace[k]? = some ev)
    (he : ev.err = some e) :
    (Run x w).err = x.WrapError (some e) ∧
      (x.exec ev.call ev.pre).2 = some e ∧
      (∀ j a, j < k → (Run x w).trace[j]? = some a → a.err = none) ∧
      (x.wrapKeepsError → (Run x w).err ≠ none) := by
  obtain ⟨hlen, herr⟩ := Run_failure_is_last x w k ev e hk he
  refine ⟨herr, ?_, ?_, ?_⟩
  · rw [← (Run_sound x w ev (List.getElem?_mem hk)).2, he]
  · intro j a hj ha
    exact Run_earlier_ok x w j a ha (by omega)
  · intro hW
    rw [herr]
    exact hW e

theorem Run_returns_wrapped_error_of_failing_stage_witness :
    ∃ ev, (Run (sampleTools false) brokenWorld).trace[1]? = some ev ∧
      ev.err = some "fatal error: no such file or directory" ∧
      ev.call.stage = Stage.GCCPreprocRunner ∧
      (Run (sampleTools false) brokenWorld).err =
        (sampleTools false).WrapError (some "fatal error: no such file or directory") :=
  ⟨_, rfl, rfl, rfl, (Run_returns_wrapped_error_of_failing_stage (sampleTools false) brokenWorld 1 _
    "fatal error: no such file or directory" rfl rfl).1⟩

/-- C7: once the preproc directory has been made, the preprocessor is the second
call of the run; it receives the context unchanged, as source the path
`SketchBuildPath.Join(MainFile.Name.Base() + ".cpp")`, as target the path
`PreprocPath.Join(FILE_CTAGS_TARGET_FOR_GCC_MINUS_E)` (a constant file name,
independent of the sketch) and as include paths `ctx.IncludeFolders`; and when
it succeeds the next call is `ReadFileAndStoreInContext` with that same target
path as `FileToRead` and `&ctx.SourceGccMinusE` as `Target`. -/
theorem Run_preprocessor_arguments (x : Collaborators ε ρ) (w : World ρ)
    (hmk : (x.MkdirAll w.ctx.PreprocPath w.fs).2 = none) :
    ∃ gcc, (Run x w).trace[1]? = some gcc ∧
      gcc.call = .GCCPreprocRunner
        (x.Join w.ctx.SketchBuildPath (x.Base w.ctx.SketchMainFileName ++ ".cpp"))
        (x.Join w.ctx.PreprocPath x.FILE_CTAGS_TARGET_FOR_GCC_MINUS_E) w.ctx.IncludeFolders ∧
      gcc.pre.ctx = w.ctx ∧
      (gcc.err = none → ∃ rd, (Run x w).trace[2]? = some rd ∧
        rd.call = .Run (.ReadFileAndStoreInContext
          (x.Join w.ctx.PreprocPath x.FILE_CTAGS_TARGET_FOR_GCC_MINUS_E) .ctxSourceGccMinusE)) := by
  have h0 : (Run x w).trace[0]? = some (mkdirEvent x w) := by
    rw [← List.head?_eq_getElem?]
    exact Run_head x w
  obtain ⟨gcc, hgcc⟩ := Run_next_stage x w 0 _ h0 hmk (by omega)
  have hc := Run_call_at x w 1 gcc hgcc
  simp only [expectedCalls, List.getElem?_cons_zero, List.getElem?_cons_succ,
    Option.some.injEq] at hc
  have hho := Run_handover_at x w 0 _ _ h0 hgcc
  refine ⟨gcc, hgcc, hc.symm, hho.1, ?_⟩
  intro hok
  obtain ⟨rd, hrd⟩ := Run_next_stage x w 1 gcc hgcc hok (by omega)
  have hc2 := Run_call_at x w 2 rd hrd
  simp only [expectedCalls, List.getElem?_cons_zero, List.getElem?_cons_succ,
    Option.some.injEq] at hc2
  exact ⟨rd, hrd, hc2.symm⟩

theorem Run_preprocessor_arguments_witness :
    ((sampleTools false).MkdirAll sampleWorld.ctx.PreprocPath sampleWorld.fs).2 = none ∧
    ∃ gcc, (Run (sampleTools false) sampleWorld).trace[1]? = some gcc ∧
      gcc.call = .GCCPreprocRunner ⟨"/b/sketch/Blink.ino.cpp"⟩
        ⟨"/b/preproc/ctags_target_for_gcc_minus_e.cpp"⟩ [⟨"/core"⟩] ∧
      gcc.pre.ctx = sampleWorld.ctx ∧
      (gcc.err = none → ∃ rd, (Run (sampleTools false) sampleWorld).trace[2]? = some rd ∧
        rd.call = .Run (.ReadFileAndStoreInContext
          ⟨"/b/preproc/ctags_target_for_gcc_minus_e.cpp"⟩ .ctxSourceGccMinusE)) :=
  ⟨rfl, Run_preprocessor_arguments (sampleTools false) sampleWorld rfl⟩

/-- C8: the tag stages only see the filtered buffer. Whenever `Run` executes
`CTagsTargetFileSaver`, it is the fifth call, its `Source` is
`&ctx.SourceGccMinusE`, the call right before it is a successful
`FilterSketchSource` on that same `&ctx.SourceGccMinusE`, and the buffer the
saver finds is the buffer the filter left. Whenever `Run` executes
`CTagsRunner`, it is the sixth call, right after that successful saver, and it
starts from the context the saver left. -/
theorem Run_tag_stages_see_filtered_buffer (x : Collaborators ε ρ) (w : World ρ) (k : Nat)
    (ev : Event ε ρ) (hk : (Run x w).trace[k]? = some ev) :
    (∀ src name, ev.call = .Run (.CTagsTargetFileSaver src name) →
      k = 4 ∧ src = .ctxSourceGccMinusE ∧
      ∃ flt, (Run x w).trace[3]? = some flt ∧
        flt.call = .Run (.FilterSketchSource .ctxSourceGccMinusE) ∧ flt.err = none ∧
        src.deref ev.pre.ctx = StringRef.ctxSourceGccMinusE.deref flt.post.ctx) ∧
    (ev.call = .Run .CTagsRunner →
      k = 5 ∧ ∃ flt saver, (Run x w).trace[3]? = some flt ∧ (Run x w).trace[4]? = some saver ∧
        flt.call = .Run (.FilterSketchSource .ctxSourceGccMinusE) ∧ flt.err = none ∧
        saver.call = .Run (.CTagsTargetFileSaver .ctxSourceGccMinusE
          x.FILE_CTAGS_TARGET_FOR_GCC_MINUS_E) ∧ saver.err = none ∧
        saver.pre.ctx = flt.post.ctx ∧ ev.pre.ctx = saver.post.ctx) := by
  have hcall := Run_call_at x w k ev hk
  have hklt : k < (Run x w).trace.length := (List.getElem?_eq_some.1 hk).1
  have hle := Run_length_le x w
  have hk8 : k < 8 := by omega
  constructor
  · intro src name hsv
    rw [hsv] at hcall
    have hk4 : k = 4 ∧ src = .ctxSourceGccMinusE := by
      interval_cases k <;>
        simp [expectedCalls, saveCall] at hcall ⊢
      exact hcall.1.symm
    obtain ⟨rfl, rfl⟩ := hk4
    have h3 : (Run x w).trace[3]? = some ((Run x w).trace[3]) :=
      List.getElem?_eq_getElem (by omega)
    have hc3 := Run_call_at x w 3 _ h3
    simp only [expectedCalls, List.getElem?_cons_zero, List.getElem?_cons_succ,
      Option.some.injEq] at hc3
    have hho := Run_handover_at x w 3 _ _ h3 hk
    refine ⟨rfl, rfl, _, h3, hc3.symm, Run_earlier_ok x w 3 _ h3 (by omega), ?_⟩
    rw [hho.1]
  · intro hrun
    rw [hrun] at hcall
    have hk5 : k = 5 := by
      interval_cases k <;>
        simp [expectedCalls, saveCall] at hcall ⊢
    subst hk5
    have h3 : (Run x w).trace[3]? = some ((Run x w).trace[3]) :=
      List.getElem?_eq_getElem (by omega)
    have h4 : (Run x w).trace[4]? = some ((Run x w).trace[4]) :=
      List.getElem?_eq_getElem (by omega)
    have hc3 := Run_call_at x w 3 _ h3
    have hc4 := Run_call_at x w 4 _ h4
    simp only [expectedCalls, List.getElem?_cons_zero, List.getElem?_cons_succ,
      Option.some.injEq] at hc3 hc4
    exact ⟨rfl, _, _, h3, h4, hc3.symm, Run_earlier_ok x w 3 _ h3 (by omega), hc4.symm,
      Run_earlier_ok x w 4 _ h4 (by omega), (Run_handover_at x w 3 _ _ h3 h4).1,
      (Run_handover_at x w 4 _ _ h4 hk).1⟩

theorem Run_tag_stages_see_filtered_buffer_witness :
    ∃ ev flt, (Run (sampleTools false) sampleWorld).trace[4]? = some ev ∧
      ev.call = .Run (.CTagsTargetFileSaver .ctxSourceGccMinusE "ctags_target_for_gcc_minus_e.cpp") ∧
      (Run (sampleTools false) sampleWorld).trace[3]? = some flt ∧
      flt.call = .Run (.FilterSketchSource .ctxSourceGccMinusE) ∧ flt.err = none ∧
      ev.pre.ctx.SourceGccMinusE = flt.post.ctx.SourceGccMinusE ∧
      flt.post.ctx.SourceGccMinusE = "1int led = 13;" ∧
      flt.pre.ctx.SourceGccMinusE = "#1int led = 13;" := by
  obtain ⟨-, -, flt, h3, hc, he, hb⟩ :=
    (Run_tag_stages_see_filtered_buffer (sampleTools false) sampleWorld 4 _ rfl).1
      .ctxSourceGccMinusE "ctags_target_for_gcc_minus_e.cpp" rfl
  refine ⟨_, flt, rfl, rfl, h3, hc, he, hb, ?_, ?_⟩
  · have h3b : (Run (sampleTools false) sampleWorld).trace[3]? =
        some ((Run (sampleTools false) sampleWorld).trace[3]) := rfl
    rw [h3b] at h3
    cases h3
    rfl
  · have h3b : (Run (sampleTools false) sampleWorld).trace[3]? =
        some ((Run (sampleTools false) sampleWorld).trace[3]) := rfl
    rw [h3b] at h3
    cases h3
    rfl

/-- C6, as the code behaves: the preprocessor stage of the sample run creates
its output file in the preproc directory, and the file is still there when
`Run` returns, both when `Run` returns nil and when it returns the error of a
failing tool. -/
theorem Run_leaves_preprocessor_output_on_disk :
    targetFilePath (sampleTools false) sampleWorld.ctx = sampleTarget ∧
    sampleWorld.fs.fileExists sampleTarget = false ∧
    (preprocEvent (sampleTools false) sampleWorld).post.fs.fileExists sampleTarget = true ∧
    (Run (sampleTools false) sampleWorld).err = none ∧
    (Run (sampleTools false) sampleWorld).world.fs.fileExists sampleTarget = true ∧
    (Run (sampleTools true) sampleWorld).err = some "ctags: exit status 1" ∧
    (Run (sampleTools true) sampleWorld).world.fs.fileExists sampleTarget = true := by
  decide

/-- C6 amended: `Run` removes no file itself. A file `p` that exists after an
executed stage, and that no callee executed later in that run removes, still
exists when `Run` returns, on the success path and on every error path. -/
theorem Run_removes_no_file (x : Collaborators ε ρ) (w : World ρ) (p : Path)
    (k : Nat) (ev : Event ε ρ) (hk : (Run x w).trace[k]? = some ev)
    (hp : ev.post.fs.fileExists p = true)
    (hkeep : ∀ (j : Nat) (b : Event ε ρ), k < j → (Run x w).trace[j]? = some b →
      b.pre.fs.fileExists p = true → b.post.fs.fileExists p = true) :
    (Run x w).world.fs.fileExists p = true := by
  have hlater : ∀ d a, (Run x w).trace[k + d]? = some a → a.post.fs.fileExists p = true := by
    intro d
    induction d with
    | zero =>
      intro a ha
      rw [Nat.add_zero, hk] at ha
      cases ha
      exact hp
    | succ d ih =>
      intro b hb
      have hlt : k + (d + 1) < (Run x w).trace.length := (List.getElem?_eq_some.1 hb).1
      have ha : (Run x w).trace[k + d]? = some ((Run x w).trace[k + d]) :=
        List.getElem?_eq_getElem (by omega)
      have hho := Run_handover_at x w (k + d) _ b ha hb
      apply hkeep (k + (d + 1)) b (by omega) hb
      rw [hho.2]
      exact ih _ ha
  have hklt : k < (Run x w).trace.length := (List.getElem?_eq_some.1 hk).1
  have hlast : (Run x w).trace[k + ((Run x w).trace.length - 1 - k)]? =
      some ((Run x w).trace[(Run x w).trace.length - 1]) := by
    rw [show k + ((Run x w).trace.length - 1 - k) = (Run x w).trace.length - 1 by omega]
    exact List.getElem?_eq_getElem (by omega)
  have hex := hlater _ _ hlast
  rw [Run_last_at x w ((Run x w).trace.length - 1) _
    (List.getElem?_eq_getElem (by omega)) (by omega)]
  exact hex

theorem Run_removes_no_file_witness :
    ∃ ev, (Run wipingTools sampleWorld).trace[1]? = some ev ∧
      ev.post.fs.fileExists sampleTarget = true ∧
      (∀ (j : Nat) (b : Event String (List String)), 1 < j →
        (Run wipingTools sampleWorld).trace[j]? = some b →
        b.pre.fs.fileExists sampleTarget = true → b.post.fs.fileExists sampleTarget = true) ∧
      (Run wipingTools sampleWorld).err = some "ctags: exit status 1" ∧
      (Run wipingTools sampleWorld).world.fs.fileExists sampleTarget = true :=
  have hkeep : ∀ (j : Nat) (b : Event String (List String)), 1 < j →
      (Run wipingTools sampleWorld).trace[j]? = some b →
      b.pre.fs.fileExists sampleTarget = true → b.post.fs.fileExists sampleTarget = true := by
    intro j b hj hb hpre
    have hall : ((Run wipingTools sampleWorld).trace.drop 2).all
        (fun a => !a.pre.fs.fileExists sampleTarget || a.post.fs.fileExists sampleTarget) = true := by
      decide
    have hmem : b ∈ (Run wipingTools sampleWorld).trace.drop 2 := by
      apply List.getElem?_mem (n := j - 2)
      rw [List.getElem?_drop, show 2 + (j - 2) = j by omega]
      exact hb
    have := List.all_eq_true.1 hall b hmem
    simpa [hpre] using this
  ⟨_, rfl, rfl, hkeep, rfl,
    Run_removes_no_file wipingTools sampleWorld sampleTarget 1 _ rfl rfl hkeep⟩

end builder
